import Mathlib

/-!
Verification development for the `/proc/mdstat` parser of mdadm
(`mdstat.c`).  The parser and its query helpers are embedded shallowly:
a logical line from the external line folder `conf_line` is a list of
whitespace-delimited tokens, `mdstat_read` is a pure function from the
list of logical lines (and the `start` flag) to the list of parsed
records, and the wait primitive is a pure function of the cached
descriptor and the outcome of `select`.
-/

namespace Mdstat

/-- Resync-kind values stored in `mdstat_ent.resync`.  The C source keeps an
`int`: 1 = resync, 2 = reshape, 3 = check, and 0 both for the initial value
(no progress token seen) and for the "recovery" assignments (the `else`
branch of the `re…=N%` rule and the `strncmp(w, "recovery", 8)` branch).
Following the specification (§4.1 rule 10 and §9), the two meanings of 0
are kept apart here: `none` for the initial value, `recovery` for the two
assignment sites that the source documents as recovery. -/
inductive ResyncKind where
  | none
  | resync
  | reshape
  | check
  | recovery
deriving Repr, DecidableEq

/-- Sentinel percent value: no resync seen (`RESYNC_NONE` in `mdadm.h`). -/
def RESYNC_NONE : Int := -1

/-- Sentinel percent value: resync delayed (`RESYNC_DELAYED` in `mdadm.h`). -/
def RESYNC_DELAYED : Int := -2

/-- Sentinel percent value: resync pending (`RESYNC_PENDING` in `mdadm.h`). -/
def RESYNC_PENDING : Int := -3

/-- Sentinel percent value: resync remote (`RESYNC_REMOTE` in `mdadm.h`). -/
def RESYNC_REMOTE : Int := -4

/-- One parsed array record, mirroring `struct mdstat_ent`.  The member list
`members` holds the names in linked-list order (`dev_member` chain), i.e.
most recently added first.  `devcnt` is the C `int` counter; it only ever
receives increments of 0 or 1 from `add_member_devname`, so it is kept as a
`Nat`. -/
structure MdstatEnt where
  devnm : String
  level : Option String := Option.none
  pattern : Option String := Option.none
  percent : Int := RESYNC_NONE
  active : Int := -1
  resync : ResyncKind := ResyncKind.none
  metadata_version : Option String := Option.none
  raid_disks : Int := 0
  devcnt : Nat := 0
  members : List String := []
deriving Repr, DecidableEq

/-- The C `atoi` digit-accumulation loop over a character list. -/
def catoiDigits : List Char → Nat → Nat
  | c :: cs, acc =>
      if '0' ≤ c ∧ c ≤ '9' then catoiDigits cs (acc * 10 + (c.toNat - 48)) else acc
  | [], acc => acc

/-- The C `atoi` applied to a character list: skip leading blanks, read an
optional sign, then accumulate decimal digits, stopping at the first
non-digit. -/
def catoi (cs : List Char) : Int :=
  match cs.dropWhile (fun c => c = ' ' ∨ c = '\t' ∨ c = '\n' ∨ c = '\x0b' ∨ c = '\x0c' ∨ c = '\r') with
  | '-' :: rest => - (catoiDigits rest 0 : Int)
  | '+' :: rest => (catoiDigits rest 0 : Int)
  | rest => (catoiDigits rest 0 : Int)

/-- Mirror of `add_member_devname`: if the token contains `[`, the name up
to the bracket is prepended to the member list and the function reports 1;
otherwise the list is unchanged and it reports 0. -/
def add_member_devname (m : List String) (name : String) : List String × Nat :=
  match name.data.findIdx? (fun c => c = '[') with
  | Option.none => (m, 0)
  | Option.some t => (String.mk (name.data.take t) :: m, 1)

/-- Mirror of the `ih` scan in `mdstat_read`: starting from the head of the
current list (position `i`, initially 0), advance while the slot is not the
previously remembered insertion slot (`old`), the slot is occupied, and the
entry's `devnm` differs from the member name `nm`; return the index of the
slot where the scan stops. -/
def scan_insert (old : Option Nat) (nm : String) (i : Nat) : List MdstatEnt → Nat
  | [] => i
  | e :: rest =>
      if old = Option.some i then i
      else if e.devnm = nm then i
      else scan_insert old nm (i + 1) rest

/-- Parser state for one logical line: the record under construction, the
`in_devs` flag and the remembered insertion slot `insert_here` (an index
into the snapshot list built so far). -/
structure ParseState where
  ent : MdstatEnt
  in_devs : Bool
  insert_here : Option Nat
deriving Repr, DecidableEq

/-- How the token loop of `mdstat_read` proceeds after one token: go on to
the next token (`cont`), stop the line at `bitmap:` (`stop`), or consume
the following token as well, as the `super` rule does (`skip`). -/
inductive WordDirective where
  | cont
  | stop
  | skip
deriving Repr, DecidableEq

/-- Body of the token loop of `mdstat_read`, for one token `w` whose
successor on the line is `next` (`dl_next(w)`, `Option.none` when `w` is the
last token).  `all` is the snapshot list built from the preceding lines,
consulted only by the `insert_here` scan.  Branches appear in source order.
In C, `super` without a following token falls through to the later rules,
none of which can match the token `super` (wrong first character for each):
this is rendered as leaving the state unchanged. -/
def classify_word (all : List MdstatEnt) (w : String) (next : Option String) (s : ParseState) :
    ParseState × WordDirective :=
  let cs := w.data
  let l := cs.length
  let ent := s.ent
  if w = "active" then
    ({ s with ent := { ent with active := 1 } }, WordDirective.cont)
  else if w = "inactive" then
    ({ s with ent := { ent with active := 0 }, in_devs := true }, WordDirective.cont)
  else if w = "bitmap:" then
    (s, WordDirective.stop)
  else if ent.active > 0 ∧ ent.level = Option.none ∧ cs.head? ≠ Option.some '(' then
    ({ s with ent := { ent with level := Option.some w }, in_devs := true }, WordDirective.cont)
  else if s.in_devs = true ∧ w = "blocks" then
    ({ s with in_devs := false }, WordDirective.cont)
  else if s.in_devs = true then
    let am := add_member_devname ent.members w
    let s' := { s with ent := { ent with members := am.1, devcnt := ent.devcnt + am.2 } }
    match cs.findIdx? (fun c => c = '[') with
    | Option.some ep =>
        if cs.take 2 = ['m', 'd'] then
          ({ s' with insert_here :=
              Option.some (scan_insert s.insert_here (String.mk (cs.take ep)) 0 all) },
            WordDirective.cont)
        else
          (s', WordDirective.cont)
    | Option.none => (s', WordDirective.cont)
  else if w = "super" then
    match next with
    | Option.some v =>
        ({ s with ent := { ent with metadata_version := Option.some v } }, WordDirective.skip)
    | Option.none => (s, WordDirective.cont)
  else if cs.head? = Option.some '[' ∧ (cs[1]?.any Char.isDigit) = true then
    ({ s with ent := { ent with raid_disks := catoi (cs.drop 1) } }, WordDirective.cont)
  else if ent.pattern = Option.none ∧ cs.head? = Option.some '[' ∧
          (cs[1]? = Option.some 'U' ∨ cs[1]? = Option.some '_') then
    let p := cs.drop 1
    let p' := if p.getLast? = Option.some ']' then p.dropLast else p
    ({ s with ent := { ent with pattern := Option.some (String.mk p') } }, WordDirective.cont)
  else if ent.percent = RESYNC_NONE ∧ cs.take 2 = ['r', 'e'] ∧
          cs.getLast? = Option.some '%' ∧ cs.contains '=' = true then
    let eqtail := (cs.dropWhile (fun c => c ≠ '=')).drop 1
    let kind := if cs.take 6 = "resync".data then ResyncKind.resync
                else if cs.take 7 = "reshape".data then ResyncKind.reshape
                else ResyncKind.recovery
    ({ s with ent := { ent with percent := catoi eqtail, resync := kind } }, WordDirective.cont)
  else if ent.percent = RESYNC_NONE ∧ (cs.head? = Option.some 'r' ∨ cs.head? = Option.some 'c') then
    let r1 := if cs.take 6 = "resync".data then ResyncKind.resync else ent.resync
    let r2 := if cs.take 7 = "reshape".data then ResyncKind.reshape else r1
    let r3 := if cs.take 8 = "recovery".data then ResyncKind.recovery else r2
    let r4 := if cs.take 5 = "check".data then ResyncKind.check else r3
    let p1 := if l > 8 ∧ cs.drop (l - 8) = "=DELAYED".data then RESYNC_DELAYED else ent.percent
    let p2 := if l > 8 ∧ cs.drop (l - 8) = "=PENDING".data then RESYNC_PENDING else p1
    let p3 := if l > 7 ∧ cs.drop (l - 7) = "=REMOTE".data then RESYNC_REMOTE else p2
    ({ s with ent := { ent with resync := r4, percent := p3 } }, WordDirective.cont)
  else if ent.percent = RESYNC_NONE ∧ (cs.head?.any (fun c => '0' ≤ c ∧ c ≤ '9')) = true ∧
          cs.getLast? = Option.some '%' then
    ({ s with ent := { ent with percent := catoi cs } }, WordDirective.cont)
  else
    (s, WordDirective.cont)

/-- The token loop of `mdstat_read` (`for (w = dl_next(line); w != line;
w = dl_next(w))`): apply `classify_word` to each token in turn, stopping at
`bitmap:` and consuming an extra token after `super`. -/
def classify_tokens (all : List MdstatEnt) : List String → ParseState → ParseState
  | [], s => s
  | w :: rest, s =>
      match classify_word all w rest.head? s with
      | (s', WordDirective.stop) => s'
      | (s', WordDirective.cont) => classify_tokens all rest s'
      | (s', WordDirective.skip) =>
          match rest with
          | [] => s'
          | _ :: rest2 => classify_tokens all rest2 s'

/-- The first-token test of `mdstat_read` ("Better be an md line.."): the
token must begin with `md`, be shorter than 32 characters, and its third
character must be `_` or a decimal digit. -/
def valid_devnm (t : String) : Bool :=
  t.data.take 2 = ['m', 'd'] && t.data.length < 32 &&
    (match t.data.drop 2 with
     | c :: _ => c = '_' || c.isDigit
     | [] => false)

/-- Fresh record as initialised by `mdstat_read` before the token loop. -/
def init_ent (devnm : String) : MdstatEnt :=
  { devnm := devnm }

/-- Insert an element in front of position `n` of a list (the C splice
`ent->next = *insert_here; *insert_here = ent;`). -/
def insert_at {α : Type} : List α → Nat → α → List α
  | l, 0, x => x :: l
  | [], _ + 1, x => [x]
  | y :: l, n + 1, x => y :: insert_at l n x

/-- Processing of one logical line by `mdstat_read`: drop the header lines
and any line whose first token is not a plausible array name, otherwise
parse the record and either splice it in front of `insert_here` (when that
slot is occupied) or append it at the end. -/
def process_line (all : List MdstatEnt) (line : List String) : List MdstatEnt :=
  match line with
  | [] => all
  | first :: rest =>
      if first = "Personalities" ∨ first = "read_ahead" ∨ first = "unused" then all
      else if valid_devnm first = false then all
      else
        let s := classify_tokens all rest { ent := init_ent first, in_devs := false, insert_here := Option.none }
        match s.insert_here with
        | Option.some p =>
            if p < all.length then insert_at all p s.ent else all ++ [s.ent]
        | Option.none => all ++ [s.ent]

/-- The final in-place reversal loop of `mdstat_read` (`rv = NULL; while
(all) { … }`). -/
def reverse_loop : List MdstatEnt → List MdstatEnt → List MdstatEnt
  | [], rv => rv
  | e :: all, rv => reverse_loop all (e :: rv)

/-- Mirror of `mdstat_read`.  The I/O part (which file descriptor the lines
come from) is abstracted away: the input is the sequence of logical lines
delivered by `conf_line`, each a list of whitespace-delimited tokens.  The
`start` flag triggers the final reversal. -/
def mdstat_read (lines : List (List String)) (start : Bool) : List MdstatEnt :=
  let all := lines.foldl process_line []
  if start then reverse_loop all [] else all

/-- Mirror of `is_mdstat_ent_external`: a record is external when its
metadata version is present and begins with `external:`. -/
def is_mdstat_ent_external (ent : MdstatEnt) : Bool :=
  match ent.metadata_version with
  | Option.none => false
  | Option.some mv => mv.data.take 9 = "external:".data

/-- Modelled from the spec: the outcome of the `select(2)` call made by
`mdstat_wait` (libc, not part of this source).  Per the spec, a positive
return signals an arrived event, zero a timeout, and a negative return an
error. -/
inductive SelectOutcome where
  | event
  | timeout
  | error
deriving Repr, DecidableEq

/-- Modelled from the spec: the integer `select(2)` hands back for each
outcome: the number of ready descriptors (here 1) on an event, 0 on
timeout, -1 on error. -/
def SelectOutcome.toInt : SelectOutcome → Int
  | SelectOutcome.event => 1
  | SelectOutcome.timeout => 0
  | SelectOutcome.error => -1

/-- Mirror of `mdstat_wait`: with no cached descriptor (`mdstat_fd < 0`)
the function returns -1 at once, without calling `select`; otherwise it
returns whatever `select` on the cached descriptor returns. -/
def mdstat_wait (mdstat_fd : Int) (sel : SelectOutcome) : Int :=
  if mdstat_fd ≥ 0 then sel.toInt else -1

theorem reverse_loop_eq (l acc : List MdstatEnt) : reverse_loop l acc = l.reverse ++ acc := by
  induction l generalizing acc with
  | nil => simp [reverse_loop]
  | cons e rest ih => simp [reverse_loop, ih]

/-- C3: `mdstat_read` with `start = true` returns exactly the reverse of the
snapshot `mdstat_read` builds with `start = false` from the same input. -/
theorem mdstat_read_start_eq_reverse (lines : List (List String)) :
    mdstat_read lines true = (mdstat_read lines false).reverse := by
  simp [mdstat_read, reverse_loop_eq]

/-- C9: `mdstat_wait` returns -1 (negative) whenever the cached descriptor
is absent, independently of `select`; with a cached descriptor its result is
the `select` result — positive exactly on an event, zero exactly on timeout,
negative exactly on error. -/
theorem mdstat_wait_spec (fd : Int) (sel : SelectOutcome) :
    (fd < 0 → mdstat_wait fd sel = -1 ∧ ∀ sel', mdstat_wait fd sel' = -1) ∧
      (0 ≤ fd →
        ((0 < mdstat_wait fd sel ↔ sel = SelectOutcome.event) ∧
          (mdstat_wait fd sel = 0 ↔ sel = SelectOutcome.timeout) ∧
          (mdstat_wait fd sel < 0 ↔ sel = SelectOutcome.error))) := by
  constructor
  · intro h
    have hlt : ¬ fd ≥ 0 := by omega
    constructor
    · simp [mdstat_wait, hlt]
    · intro sel'; simp [mdstat_wait, hlt]
  · intro h
    have hge : fd ≥ 0 := h
    cases sel <;> simp [mdstat_wait, hge, SelectOutcome.toInt]

section ConcreteRuns

/-- Record parsed from `md0 : active raid1 sda1[0] 1000 blocks`. -/
def ent_md0 : MdstatEnt :=
  { devnm := "md0", level := Option.some "raid1", active := 1, devcnt := 1, members := ["sda1"] }

/-- Record parsed from `md1 : active raid1 sdb1[0] 1000 blocks`. -/
def ent_md1 : MdstatEnt :=
  { devnm := "md1", level := Option.some "raid1", active := 1, devcnt := 1, members := ["sdb1"] }

/-- Record parsed from the S4 line `md3 : active raid0 md1[1] md0[0]
2097152 blocks 64k chunks`. -/
def ent_md3 : MdstatEnt :=
  { devnm := "md3", level := Option.some "raid0", active := 1, devcnt := 2, members := ["md0", "md1"] }

lemma step_md0 :
    process_line [] ["md0", ":", "active", "raid1", "sda1[0]", "1000", "blocks"] = [ent_md0] := by
  rfl

lemma step_md1 :
    process_line [ent_md0] ["md1", ":", "active", "raid1", "sdb1[0]", "1000", "blocks"] =
      [ent_md0, ent_md1] := by
  rfl

lemma step_md3 :
    process_line [ent_md0, ent_md1]
        ["md3", ":", "active", "raid0", "md1[1]", "md0[0]", "2097152", "blocks", "64k", "chunks"] =
      [ent_md3, ent_md0, ent_md1] := by
  rfl

/-- The three-line scenario of S4: `md0` and `md1` are listed first, then
the composite `md3` built from both. -/
def s4_lines : List (List String) :=
  [["md0", ":", "active", "raid1", "sda1[0]", "1000", "blocks"],
   ["md1", ":", "active", "raid1", "sdb1[0]", "1000", "blocks"],
   ["md3", ":", "active", "raid0", "md1[1]", "md0[0]", "2097152", "blocks", "64k", "chunks"]]

lemma s4_lines_eval : mdstat_read s4_lines false = [ent_md3, ent_md0, ent_md1] := by
  simp only [mdstat_read, s4_lines, List.foldl_cons, List.foldl_nil,
    step_md0, step_md1, step_md3]
  simp

end ConcreteRuns

/-- C2: parsing the S4 line `md3 : active raid0 md1[1] md0[0] 2097152 blocks
64k chunks` against a snapshot already holding `md0` then `md1` splices the
new record before `md0` (the earliest component already present), so the
`start = false` order is `md3, md0, md1`. -/
theorem s4_md3_spliced_before_md0 :
    (mdstat_read s4_lines false).map (fun e => e.devnm) = ["md3", "md0", "md1"] := by
  rw [s4_lines_eval]; rfl

section ConcreteRuns2

/-- Record parsed from `md0 : active raid1 sda1[0] 100 blocks`. -/
def ent_md0_plain : MdstatEnt :=
  { devnm := "md0", level := Option.some "raid1", active := 1, devcnt := 1, members := ["sda1"] }

/-- Record parsed from `md3 : active raid0 md0[0] 200 blocks`: a composite
whose single member is `md0`. -/
def ent_md3_of_md0 : MdstatEnt :=
  { devnm := "md3", level := Option.some "raid0", active := 1, devcnt := 1, members := ["md0"] }

lemma step2_md0 :
    process_line [] ["md0", ":", "active", "raid1", "sda1[0]", "100", "blocks"] = [ent_md0_plain] := by
  rfl

lemma step2_md3 :
    process_line [ent_md0_plain] ["md3", ":", "active", "raid0", "md0[0]", "200", "blocks"] =
      [ent_md3_of_md0, ent_md0_plain] := by
  rfl

/-- Two-line scenario: `md0` is listed, then the composite `md3` built from
it — so `md3` is spliced before `md0`. -/
def compo_lines : List (List String) :=
  [["md0", ":", "active", "raid1", "sda1[0]", "100", "blocks"],
   ["md3", ":", "active", "raid0", "md0[0]", "200", "blocks"]]

lemma compo_lines_eval_true :
    mdstat_read compo_lines true = [ent_md0_plain, ent_md3_of_md0] := by
  simp only [mdstat_read, compo_lines, List.foldl_cons, List.foldl_nil, step2_md0, step2_md3]
  simp [reverse_loop_eq]

end ConcreteRuns2

/-- C1 counterexample: on the two-line input where `md0` is listed and then
`md3` is built from it, the `start = true` snapshot is `[md0, md3]`, in
which the earlier record `md0` is a member-array of the later record `md3`
— the claimed ordering invariant fails for `start = true`. -/
theorem order_claim_fails_for_start_true :
    ¬ (mdstat_read compo_lines true).Pairwise (fun a b => a.devnm ∉ b.members) := by
  rw [compo_lines_eval_true]
  intro h
  exact (List.pairwise_cons.mp h).1 ent_md3_of_md0 (by simp) (by decide)

section ConcreteRuns3

/-- Record parsed from `md0 : active raid1 sda1[0] 100 blocks [U_X]`: the
pattern token `[U_X]` is accepted because only its first character is
checked. -/
def ent_junk_pattern : MdstatEnt :=
  { devnm := "md0", level := Option.some "raid1", pattern := Option.some "U_X",
    active := 1, devcnt := 1, members := ["sda1"] }

lemma step_junk_pattern :
    process_line [] ["md0", ":", "active", "raid1", "sda1[0]", "100", "blocks", "[U_X]"] =
      [ent_junk_pattern] := by
  rfl

/-- Record parsed from `md0 : active raid0 sda1[0] 128 blocks 37%`: the bare
percent token sets `percent` while `resync` keeps its initial value. -/
def ent_bare_percent : MdstatEnt :=
  { devnm := "md0", level := Option.some "raid0", percent := 37,
    active := 1, devcnt := 1, members := ["sda1"] }

lemma step_bare_percent :
    process_line [] ["md0", ":", "active", "raid0", "sda1[0]", "128", "blocks", "37%"] =
      [ent_bare_percent] := by
  rfl

end ConcreteRuns3

/-- C4 counterexample: the token `[U_X]` passes the parser's check (which
looks only at the first character after `[`), so the snapshot carries the
pattern `U_X`, whose character `X` is neither `U` nor `_`. -/
theorem pattern_claim_fails_on_junk_chars :
    ((mdstat_read [["md0", ":", "active", "raid1", "sda1[0]", "100", "blocks", "[U_X]"]] false).map
        (fun e => e.pattern)) = [Option.some "U_X"] ∧
      ¬ (∀ c ∈ "U_X".data, c = 'U' ∨ c = '_') := by
  constructor
  · show (List.foldl process_line [] _).map _ = _
    rw [List.foldl_cons, step_junk_pattern]; rfl
  · decide

/-- C5 counterexample: a bare percent token (`37%`) with no resync/recovery
word on the line sets `percent = 37 ∈ 0..100` while `resync` keeps its
initial value `none`, refuting the claimed implication. -/
theorem percent_claim_fails_on_bare_percent :
    ((mdstat_read [["md0", ":", "active", "raid0", "sda1[0]", "128", "blocks", "37%"]] false).map
        (fun e => (e.percent, e.resync))) = [(37, ResyncKind.none)] ∧
      (0 : Int) ≤ 37 ∧ (37 : Int) ≤ 100 := by
  refine ⟨?_, by decide, by decide⟩
  show (List.foldl process_line [] _).map _ = _
  rw [List.foldl_cons, step_bare_percent]; rfl

section ConcreteRuns4

/-- Record parsed from the S6 line `md5 : active raid1 sdg1[0] 1048576
blocks super external:/container0/vol1 [1/1] [U] bitmap: …`. -/
def ent_s6 : MdstatEnt :=
  { devnm := "md5", level := Option.some "raid1", pattern := Option.some "U",
    active := 1, metadata_version := Option.some "external:/container0/vol1",
    raid_disks := 1, devcnt := 1, members := ["sdg1"] }

lemma step_s6 (extra : List String) :
    process_line []
        (["md5", ":", "active", "raid1", "sdg1[0]", "1048576", "blocks", "super",
          "external:/container0/vol1", "[1/1]", "[U]", "bitmap:"] ++ extra) = [ent_s6] := by
  rfl

end ConcreteRuns4

/-- C8: the S6 line yields `metadata_version = external:/container0/vol1`
(hence `is_mdstat_ent_external`), `raid_disks = 1` and `pattern = U`, and
every token after `bitmap:` is ignored: the parse is the same for every
continuation `extra`, in particular for the literal `1/1 pages [4KB]`. -/
theorem s6_external_and_bitmap_stops (extra : List String) :
    mdstat_read
        [["md5", ":", "active", "raid1", "sdg1[0]", "1048576", "blocks", "super",
          "external:/container0/vol1", "[1/1]", "[U]", "bitmap:"] ++ extra] false = [ent_s6] ∧
      ent_s6.metadata_version = Option.some "external:/container0/vol1" ∧
      is_mdstat_ent_external ent_s6 = true ∧
      ent_s6.raid_disks = 1 ∧
      ent_s6.pattern = Option.some "U" := by
  refine ⟨?_, rfl, by decide, rfl, rfl⟩
  show List.foldl process_line [] _ = _
  rw [List.foldl_cons, step_s6, List.foldl_nil]

/-- Witness for C9 at the concrete descriptors -1 (absent) and 5 (cached). -/
theorem mdstat_wait_spec_witness :
    mdstat_wait (-1) SelectOutcome.event = -1 ∧
      0 < mdstat_wait 5 SelectOutcome.event ∧
      mdstat_wait 5 SelectOutcome.timeout = 0 ∧
      mdstat_wait 5 SelectOutcome.error < 0 :=
  ⟨((mdstat_wait_spec (-1) SelectOutcome.event).1 (by decide)).1,
    ((mdstat_wait_spec 5 SelectOutcome.event).2 (by decide)).1.2 rfl,
    ((mdstat_wait_spec 5 SelectOutcome.timeout).2 (by decide)).2.1.2 rfl,
    ((mdstat_wait_spec 5 SelectOutcome.error).2 (by decide)).2.2.2 rfl⟩

lemma classify_tokens_cons (all : List MdstatEnt) (w : String) (rest : List String) (s : ParseState) :
    classify_tokens all (w :: rest) s =
      match classify_word all w rest.head? s with
      | (sx, WordDirective.stop) => sx
      | (sx, WordDirective.cont) => classify_tokens all rest sx
      | (sx, WordDirective.skip) =>
          match rest with
          | [] => sx
          | _ :: rest2 => classify_tokens all rest2 sx := by
  cases rest with
  | nil =>
      rcases h : classify_word all w Option.none s with ⟨sx, d⟩
      cases d <;> simp [classify_tokens, h]
  | cons v rest2 =>
      rcases h : classify_word all w (Option.some v) s with ⟨sx, d⟩
      cases d <;> simp [classify_tokens, h]

lemma classify_tokens_inv (all : List MdstatEnt) (P : ParseState → Prop) (Q : String → Prop)
    (hw : ∀ w next s, Q w → P s → P (classify_word all w next s).1) :
    ∀ ts s, (∀ w ∈ ts, Q w) → P s → P (classify_tokens all ts s) := by
  have aux : ∀ (n : Nat) (ts : List String) (s : ParseState), ts.length ≤ n →
      (∀ w ∈ ts, Q w) → P s → P (classify_tokens all ts s) := by
    intro n
    induction n with
    | zero =>
        intro ts s hlen hq hp
        cases ts with
        | nil => simpa [classify_tokens] using hp
        | cons w rest => simp at hlen
    | succ n ih =>
        intro ts s hlen hq hp
        cases ts with
        | nil => simpa [classify_tokens] using hp
        | cons w rest =>
            rw [classify_tokens_cons]
            have hp' : P (classify_word all w rest.head? s).1 :=
              hw w rest.head? s (hq w (by simp)) hp
            rcases hcw : classify_word all w rest.head? s with ⟨sx, d⟩
            rw [hcw] at hp'
            cases d with
            | stop => exact hp'
            | cont =>
                exact ih rest sx (by simpa using Nat.le_of_succ_le_succ (by simpa using hlen))
                  (fun u hu => hq u (by simp [hu])) hp'
            | skip =>
                cases rest with
                | nil => exact hp'
                | cons v rest2 =>
                    refine ih rest2 sx ?_ (fun u hu => hq u (by simp [hu])) hp'
                    simp at hlen
                    omega
  intro ts s hq hp
  exact aux ts.length ts s (Nat.le_refl _) hq hp

/-- Inversion principle for `classify_word`: every branch of the token
classifier produces one of these effects on the parser state.  Constructor
arguments carry the facts about the produced fields that the record
invariants rely on. -/
inductive WordEffect (all : List MdstatEnt) (w : String) (next : Option String) (s : ParseState) :
    ParseState × WordDirective → Prop where
  | set_active :
      WordEffect all w next s ({ s with ent := { s.ent with active := 1 } }, WordDirective.cont)
  | set_inactive :
      WordEffect all w next s
        ({ s with ent := { s.ent with active := 0 }, in_devs := true }, WordDirective.cont)
  | stop_bitmap : WordEffect all w next s (s, WordDirective.stop)
  | set_level (lv : String) :
      WordEffect all w next s
        ({ s with ent := { s.ent with level := Option.some lv }, in_devs := true }, WordDirective.cont)
  | clear_in_devs : WordEffect all w next s ({ s with in_devs := false }, WordDirective.cont)
  | member_scan (name : String) :
      WordEffect all w next s
        ({ s with
            ent := { s.ent with members := name :: s.ent.members, devcnt := s.ent.devcnt + 1 },
            insert_here := Option.some (scan_insert s.insert_here name 0 all) }, WordDirective.cont)
  | member_noscan (name : String) (hmd : ¬ name.data.take 2 = ['m', 'd']) :
      WordEffect all w next s
        ({ s with ent := { s.ent with members := name :: s.ent.members, devcnt := s.ent.devcnt + 1 } },
          WordDirective.cont)
  | set_super (v : String) :
      WordEffect all w next s
        ({ s with ent := { s.ent with metadata_version := Option.some v } }, WordDirective.skip)
  | set_raid_disks (n : Int) :
      WordEffect all w next s
        ({ s with ent := { s.ent with raid_disks := n } }, WordDirective.cont)
  | set_pattern (q : String) (hq : ¬ q.data = [])
      (hhd : q.data.head? = Option.some 'U' ∨ q.data.head? = Option.some '_') :
      WordEffect all w next s
        ({ s with ent := { s.ent with pattern := Option.some q } }, WordDirective.cont)
  | set_progress (pc : Int) (k : ResyncKind) (hk : ¬ k = ResyncKind.none) :
      WordEffect all w next s
        ({ s with ent := { s.ent with percent := pc, resync := k } }, WordDirective.cont)
  | set_kindword (k : ResyncKind) (pc : Int) (hpc : pc < 0) :
      WordEffect all w next s
        ({ s with ent := { s.ent with resync := k, percent := pc } }, WordDirective.cont)
  | set_bare_percent (pc : Int)
      (hd : (w.data.head?.any (fun c => '0' ≤ c ∧ c ≤ '9')) = true)
      (hl : w.data.getLast? = Option.some '%') :
      WordEffect all w next s
        ({ s with ent := { s.ent with percent := pc } }, WordDirective.cont)
  | no_change : WordEffect all w next s (s, WordDirective.cont)

lemma take_two_of_take (cs : List Char) (ep : Nat) (h : (cs.take ep).take 2 = ['m', 'd']) :
    cs.take 2 = ['m', 'd'] := by
  rw [List.take_take] at h
  have hlen := congrArg List.length h
  rw [List.length_take] at hlen
  simp at hlen
  have h2 : min 2 ep = 2 := by omega
  rwa [h2] at h

lemma classify_word_effect (all : List MdstatEnt) (w : String) (next : Option String) (s : ParseState) :
    WordEffect all w next s (classify_word all w next s) := by
  by_cases c1 : w = "active"
  · have h : classify_word all w next s = ({ s with ent := { s.ent with active := 1 } }, WordDirective.cont) := by
      simp only [classify_word]; rw [if_pos c1]
    rw [h]; exact WordEffect.set_active
  by_cases c2 : w = "inactive"
  · have h : classify_word all w next s =
        ({ s with ent := { s.ent with active := 0 }, in_devs := true }, WordDirective.cont) := by
      simp only [classify_word]; rw [if_neg c1, if_pos c2]
    rw [h]; exact WordEffect.set_inactive
  by_cases c3 : w = "bitmap:"
  · have h : classify_word all w next s = (s, WordDirective.stop) := by
      simp only [classify_word]; rw [if_neg c1, if_neg c2, if_pos c3]
    rw [h]; exact WordEffect.stop_bitmap
  by_cases c4 : s.ent.active > 0 ∧ s.ent.level = Option.none ∧ w.data.head? ≠ Option.some '('
  · have h : classify_word all w next s =
        ({ s with ent := { s.ent with level := Option.some w }, in_devs := true }, WordDirective.cont) := by
      simp only [classify_word]; rw [if_neg c1, if_neg c2, if_neg c3, if_pos c4]
    rw [h]; exact WordEffect.set_level w
  by_cases c5 : s.in_devs = true ∧ w = "blocks"
  · have h : classify_word all w next s = ({ s with in_devs := false }, WordDirective.cont) := by
      simp only [classify_word]; rw [if_neg c1, if_neg c2, if_neg c3, if_neg c4, if_pos c5]
    rw [h]; exact WordEffect.clear_in_devs
  by_cases c6 : s.in_devs = true
  · rcases hep : w.data.findIdx? (fun c => c = '[') with _ | ep
    · have h : classify_word all w next s = (s, WordDirective.cont) := by
        simp only [classify_word, add_member_devname]
        rw [if_neg c1, if_neg c2, if_neg c3, if_neg c4, if_neg c5, if_pos c6, hep]
        rfl
      rw [h]; exact WordEffect.no_change
    · by_cases cmd : List.take 2 w.data = ['m', 'd']
      · have h : classify_word all w next s =
            ({ s with
                ent := { s.ent with
                          members := String.mk (List.take ep w.data) :: s.ent.members,
                          devcnt := s.ent.devcnt + 1 },
                insert_here := Option.some (scan_insert s.insert_here (String.mk (List.take ep w.data)) 0 all) },
              WordDirective.cont) := by
          simp only [classify_word, add_member_devname]
          rw [if_neg c1, if_neg c2, if_neg c3, if_neg c4, if_neg c5, if_pos c6, hep]
          simp only []
          rw [if_pos cmd]
        rw [h]; exact WordEffect.member_scan (String.mk (List.take ep w.data))
      · have h : classify_word all w next s =
            ({ s with
                ent := { s.ent with
                          members := String.mk (List.take ep w.data) :: s.ent.members,
                          devcnt := s.ent.devcnt + 1 } },
              WordDirective.cont) := by
          simp only [classify_word, add_member_devname]
          rw [if_neg c1, if_neg c2, if_neg c3, if_neg c4, if_neg c5, if_pos c6, hep]
          simp only []
          rw [if_neg cmd]
        rw [h]
        refine WordEffect.member_noscan (String.mk (List.take ep w.data)) ?_
        intro hcon
        exact cmd (take_two_of_take w.data ep hcon)
  by_cases c7 : w = "super"
  · rcases hnext : next with _ | v
    · have h : classify_word all w Option.none s = (s, WordDirective.cont) := by
        simp only [classify_word]
        rw [if_neg c1, if_neg c2, if_neg c3, if_neg c4, if_neg c5, if_neg c6, if_pos c7]
      rw [h]; exact WordEffect.no_change
    · have h : classify_word all w (Option.some v) s =
          ({ s with ent := { s.ent with metadata_version := Option.some v } }, WordDirective.skip) := by
        simp only [classify_word]
        rw [if_neg c1, if_neg c2, if_neg c3, if_neg c4, if_neg c5, if_neg c6, if_pos c7]
      rw [h]; exact WordEffect.set_super v
  by_cases c8 : w.data.head? = Option.some '[' ∧ (w.data[1]?.any Char.isDigit) = true
  · have h : classify_word all w next s =
        ({ s with ent := { s.ent with raid_disks := catoi (List.drop 1 w.data) } }, WordDirective.cont) := by
      simp only [classify_word]
      rw [if_neg c1, if_neg c2, if_neg c3, if_neg c4, if_neg c5, if_neg c6, if_neg c7, if_pos c8]
    rw [h]; exact WordEffect.set_raid_disks _
  by_cases c9 : s.ent.pattern = Option.none ∧ w.data.head? = Option.some '[' ∧
      (w.data[1]? = Option.some 'U' ∨ w.data[1]? = Option.some '_')
  · have h : classify_word all w next s =
        ({ s with
            ent := { s.ent with
                      pattern := Option.some (String.mk
                        (if (List.drop 1 w.data).getLast? = Option.some ']' then (List.drop 1 w.data).dropLast
                         else List.drop 1 w.data)) } }, WordDirective.cont) := by
      simp only [classify_word]
      rw [if_neg c1, if_neg c2, if_neg c3, if_neg c4, if_neg c5, if_neg c6, if_neg c7, if_neg c8,
        if_pos c9]
    rw [h]
    rcases c9 with ⟨hpat, hhd, hU⟩
    rcases hcs : w.data with _ | ⟨a, cs2⟩
    · rw [hcs] at hhd; simp at hhd
    rcases hcs2 : cs2 with _ | ⟨b, cs3⟩
    · rw [hcs, hcs2] at hU; simp at hU
    have hb : w.data[1]? = Option.some b := by rw [hcs, hcs2]; simp
    have hbU : b = 'U' ∨ b = '_' := by
      rcases hU with hU | hU <;> rw [hb] at hU <;> simp at hU <;> simp [hU]
    simp only [List.drop_succ_cons, List.drop_zero]
    rcases cs3 with _ | ⟨c0, cs4⟩
    · have hbr : ¬ ([b] : List Char).getLast? = Option.some ']' := by
        rcases hbU with h1 | h1 <;> simp [h1, List.getLast?]
      rw [if_neg hbr]
      exact WordEffect.set_pattern (String.mk [b]) (by simp)
        (by rcases hbU with h1 | h1 <;> simp [h1])
    · by_cases hbr : (b :: c0 :: cs4).getLast? = Option.some ']'
      · rw [if_pos hbr]
        refine WordEffect.set_pattern (String.mk ((b :: c0 :: cs4).dropLast)) ?_ ?_
        · simp [List.dropLast]
        · have hh : ((b :: c0 :: cs4).dropLast).head? = Option.some b := by
            simp [List.dropLast]
          rw [hh]
          rcases hbU with h1 | h1 <;> simp [h1]
      · rw [if_neg hbr]
        exact WordEffect.set_pattern (String.mk (b :: c0 :: cs4)) (by simp)
          (by rcases hbU with h1 | h1 <;> simp [h1])
  by_cases c10 : s.ent.percent = RESYNC_NONE ∧ List.take 2 w.data = ['r', 'e'] ∧
      w.data.getLast? = Option.some '%' ∧ w.data.contains '=' = true
  · have h : classify_word all w next s =
        ({ s with
            ent := { s.ent with
                      percent := catoi (List.drop 1 (List.dropWhile (fun c => c ≠ '=') w.data)),
                      resync := if List.take 6 w.data = "resync".data then ResyncKind.resync
                                else if List.take 7 w.data = "reshape".data then ResyncKind.reshape
                                else ResyncKind.recovery } }, WordDirective.cont) := by
      simp only [classify_word]
      rw [if_neg c1, if_neg c2, if_neg c3, if_neg c4, if_neg c5, if_neg c6, if_neg c7, if_neg c8,
        if_neg c9, if_pos c10]
    rw [h]
    refine WordEffect.set_progress _ _ ?_
    by_cases h6 : List.take 6 w.data = "resync".data
    · simp [h6]
    · by_cases h7 : List.take 7 w.data = "reshape".data <;> simp [h6, h7]
  by_cases c11 : s.ent.percent = RESYNC_NONE ∧
      (w.data.head? = Option.some 'r' ∨ w.data.head? = Option.some 'c')
  · have h : classify_word all w next s =
        ({ s with
            ent := { s.ent with
            resync :=
              (if List.take 5 w.data = "check".data then ResyncKind.check
               else if List.take 8 w.data = "recovery".data then ResyncKind.recovery
               else if List.take 7 w.data = "reshape".data then ResyncKind.reshape
               else if List.take 6 w.data = "resync".data then ResyncKind.resync
               else s.ent.resync),
            percent :=
              (if w.data.length > 7 ∧ List.drop (w.data.length - 7) w.data = "=REMOTE".data then RESYNC_REMOTE
               else if w.data.length > 8 ∧ List.drop (w.data.length - 8) w.data = "=PENDING".data then RESYNC_PENDING
               else if w.data.length > 8 ∧ List.drop (w.data.length - 8) w.data = "=DELAYED".data then RESYNC_DELAYED
               else s.ent.percent) } }, WordDirective.cont) := by
      simp only [classify_word]
      rw [if_neg c1, if_neg c2, if_neg c3, if_neg c4, if_neg c5, if_neg c6, if_neg c7, if_neg c8,
        if_neg c9, if_neg c10, if_pos c11]
    rw [h]
    refine WordEffect.set_kindword _ _ ?_
    have hpn : s.ent.percent = RESYNC_NONE := c11.1
    split_ifs <;> simp [RESYNC_REMOTE, RESYNC_PENDING, RESYNC_DELAYED, hpn, RESYNC_NONE]
  by_cases c12 : s.ent.percent = RESYNC_NONE ∧ (w.data.head?.any (fun c => '0' ≤ c ∧ c ≤ '9')) = true ∧
      w.data.getLast? = Option.some '%'
  · have h : classify_word all w next s =
        ({ s with ent := { s.ent with percent := catoi w.data } }, WordDirective.cont) := by
      simp only [classify_word]
      rw [if_neg c1, if_neg c2, if_neg c3, if_neg c4, if_neg c5, if_neg c6, if_neg c7, if_neg c8,
        if_neg c9, if_neg c10, if_neg c11, if_pos c12]
    rw [h]
    exact WordEffect.set_bare_percent _ c12.2.1 c12.2.2
  · have h : classify_word all w next s = (s, WordDirective.cont) := by
      simp only [classify_word]
      rw [if_neg c1, if_neg c2, if_neg c3, if_neg c4, if_neg c5, if_neg c6, if_neg c7, if_neg c8,
        if_neg c9, if_neg c10, if_neg c11, if_neg c12]
    rw [h]; exact WordEffect.no_change

lemma classify_word_devnm (all : List MdstatEnt) (w : String) (next : Option String) (s : ParseState) :
    (classify_word all w next s).1.ent.devnm = s.ent.devnm := by
  have he := classify_word_effect all w next s
  generalize hres : classify_word all w next s = r at he
  cases he <;> rfl

lemma classify_word_devcnt (all : List MdstatEnt) (w : String) (next : Option String) (s : ParseState)
    (h : s.ent.devcnt = s.ent.members.length) :
    (classify_word all w next s).1.ent.devcnt = (classify_word all w next s).1.ent.members.length := by
  have he := classify_word_effect all w next s
  generalize hres : classify_word all w next s = r at he
  cases he <;> simp [h]

/-- The pattern invariant carried through the token loop: a pattern, once
set, is a nonempty string whose first character is `U` or `_`. -/
def pattern_ok (e : MdstatEnt) : Prop :=
  ∀ p, e.pattern = Option.some p →
    ¬ p.data = [] ∧ (p.data.head? = Option.some 'U' ∨ p.data.head? = Option.some '_')

lemma classify_word_pattern (all : List MdstatEnt) (w : String) (next : Option String)
    (s : ParseState) (h : pattern_ok s.ent) : pattern_ok (classify_word all w next s).1.ent := by
  have he := classify_word_effect all w next s
  generalize hres : classify_word all w next s = r at he
  cases he with
  | set_pattern q hq hhd =>
      intro p hp
      have hqp : q = p := Option.some.inj hp
      subst hqp
      exact ⟨hq, hhd⟩
  | _ => exact h

/-- A bare percent token: first character a decimal digit, last character
`%` (the shape consumed by the last rule of the token classifier). -/
def bare_percent (w : String) : Bool :=
  (w.data.head?.any (fun c => '0' ≤ c ∧ c ≤ '9')) && decide (w.data.getLast? = Option.some '%')

/-- The percent/resync invariant carried through the token loop: an integer
percent in 0..100 implies a resync kind other than `none`. -/
def percent_kind_ok (e : MdstatEnt) : Prop :=
  0 ≤ e.percent → e.percent ≤ 100 → ¬ e.resync = ResyncKind.none

lemma classify_word_percent (all : List MdstatEnt) (w : String) (next : Option String)
    (s : ParseState) (hq : bare_percent w = false) (h : percent_kind_ok s.ent) :
    percent_kind_ok (classify_word all w next s).1.ent := by
  have he := classify_word_effect all w next s
  generalize hres : classify_word all w next s = r at he
  cases he with
  | set_progress pc k hk => intro h0 h100; exact hk
  | set_kindword k pc hpc =>
      intro h0 h100
      dsimp only at h0 h100
      omega
  | set_bare_percent pc hd hl =>
      rw [bare_percent, hd, decide_eq_true hl] at hq
      simp at hq
  | _ => exact h

lemma mem_insert_at {α : Type} (l : List α) (n : Nat) (x a : α) :
    a ∈ insert_at l n x ↔ a = x ∨ a ∈ l := by
  induction l generalizing n with
  | nil => cases n <;> simp [insert_at]
  | cons y t ih =>
      cases n with
      | zero => simp [insert_at]
      | succ m =>
          simp only [insert_at, List.mem_cons, ih]
          tauto

lemma mem_process_line (all : List MdstatEnt) (line : List String) (r : MdstatEnt)
    (hr : r ∈ process_line all line) :
    r ∈ all ∨ ∃ first rest, line = first :: rest ∧ valid_devnm first = true ∧
      r = (classify_tokens all rest
            { ent := init_ent first, in_devs := false, insert_here := Option.none }).ent := by
  cases line with
  | nil => exact Or.inl hr
  | cons first rest =>
      by_cases hh : first = "Personalities" ∨ first = "read_ahead" ∨ first = "unused"
      · rw [process_line, if_pos hh] at hr
        exact Or.inl hr
      · by_cases hv : valid_devnm first = false
        · rw [process_line, if_neg hh, if_pos hv] at hr
          exact Or.inl hr
        · rw [process_line, if_neg hh, if_neg hv] at hr
          dsimp only at hr
          have hvt : valid_devnm first = true := by
            cases hb : valid_devnm first
            · exact absurd hb hv
            · rfl
          rcases hih : (classify_tokens all rest
              { ent := init_ent first, in_devs := false, insert_here := Option.none }).insert_here with _ | p
          · rw [hih] at hr
            simp only [List.mem_append, List.mem_singleton] at hr
            rcases hr with hr | hr
            · exact Or.inl hr
            · exact Or.inr ⟨first, rest, rfl, hvt, hr⟩
          · rw [hih] at hr
            dsimp only at hr
            by_cases hp : p < all.length
            · rw [if_pos hp] at hr
              rcases (mem_insert_at all p _ r).mp hr with hr | hr
              · exact Or.inr ⟨first, rest, rfl, hvt, hr⟩
              · exact Or.inl hr
            · rw [if_neg hp] at hr
              simp only [List.mem_append, List.mem_singleton] at hr
              rcases hr with hr | hr
              · exact Or.inl hr
              · exact Or.inr ⟨first, rest, rfl, hvt, hr⟩

lemma mdstat_read_mem_inv (P : MdstatEnt → Prop) (Q : String → Prop)
    (hword : ∀ all w next s, Q w → P s.ent → P ((classify_word all w next s).1.ent))
    (hinit : ∀ t, valid_devnm t = true → P (init_ent t)) :
    ∀ (lines : List (List String)) (start : Bool) (r : MdstatEnt),
      (∀ l ∈ lines, ∀ w ∈ l, Q w) → r ∈ mdstat_read lines start → P r := by
  have hfold : ∀ (lines : List (List String)) (all : List MdstatEnt),
      (∀ l ∈ lines, ∀ w ∈ l, Q w) → (∀ e ∈ all, P e) →
      ∀ e ∈ lines.foldl process_line all, P e := by
    intro lines
    induction lines with
    | nil => intro all _ hall; simpa using hall
    | cons l rest ih =>
        intro all hq hall
        rw [List.foldl_cons]
        refine ih (process_line all l) (fun l2 h2 u hu => hq l2 (List.mem_cons_of_mem _ h2) u hu) ?_
        intro e he
        rcases mem_process_line all l e he with he' | ⟨first, rest2, hline, hvalid, hent⟩
        · exact hall e he'
        · subst hent
          refine classify_tokens_inv all (fun st => P st.ent) Q
            (fun u next st hqw hp => hword all u next st hqw hp) rest2 _ ?_ (hinit first hvalid)
          intro u hu
          exact hq l (List.mem_cons_self _ _) u (by rw [hline]; exact List.mem_cons_of_mem _ hu)
  intro lines start r hq hr
  have hbase := hfold lines [] hq (by simp)
  cases start with
  | false =>
      have : mdstat_read lines false = lines.foldl process_line [] := by
        simp [mdstat_read]
      rw [this] at hr
      exact hbase r hr
  | true =>
      have : mdstat_read lines true = (lines.foldl process_line []).reverse := by
        simp [mdstat_read, reverse_loop_eq]
      rw [this] at hr
      exact hbase r (List.mem_reverse.mp hr)

lemma valid_devnm_spec (t : String) (h : valid_devnm t = true) :
    List.take 2 t.data = ['m', 'd'] ∧ t.data.length < 32 ∧
      ∃ c rest2, List.drop 2 t.data = c :: rest2 ∧ (c = '_' ∨ c.isDigit = true) := by
  rw [valid_devnm] at h
  rw [Bool.and_eq_true, Bool.and_eq_true] at h
  rcases h with ⟨⟨h1, h2⟩, h3⟩
  refine ⟨by simpa using h1, by simpa using h2, ?_⟩
  rcases hd : List.drop 2 t.data with _ | ⟨c, rest2⟩
  · rw [hd] at h3; simp at h3
  · rw [hd] at h3
    refine ⟨c, rest2, rfl, ?_⟩
    rcases (Bool.or_eq_true _ _).mp h3 with h4 | h4
    · exact Or.inl (by simpa using h4)
    · exact Or.inr h4

section ConcreteRuns5

/-- Record parsed from `md0 : active raid1 sda1[0] 128 blocks resync=37%`. -/
def ent_resync37 : MdstatEnt :=
  { devnm := "md0", level := Option.some "raid1", percent := 37, resync := ResyncKind.resync,
    active := 1, devcnt := 1, members := ["sda1"] }

lemma step_resync37 :
    process_line [] ["md0", ":", "active", "raid1", "sda1[0]", "128", "blocks", "resync=37%"] =
      [ent_resync37] := by
  rfl

lemma resync37_eval :
    mdstat_read [["md0", ":", "active", "raid1", "sda1[0]", "128", "blocks", "resync=37%"]] false =
      [ent_resync37] := by
  simp only [mdstat_read, List.foldl_cons, List.foldl_nil, step_resync37]
  simp

lemma junk_pattern_eval :
    mdstat_read [["md0", ":", "active", "raid1", "sda1[0]", "100", "blocks", "[U_X]"]] false =
      [ent_junk_pattern] := by
  simp only [mdstat_read, List.foldl_cons, List.foldl_nil, step_junk_pattern]
  simp

end ConcreteRuns5

/-- C6: every record of every snapshot has a `devnm` that passes the md-line
test: it begins with `md`, is shorter than 32 characters, and its third
character is `_` or a decimal digit; and a line whose first token fails the
test produces no record — `process_line` returns the list unchanged. -/
theorem mdstat_read_devnm_valid :
    (∀ (lines : List (List String)) (start : Bool) (r : MdstatEnt), r ∈ mdstat_read lines start →
        valid_devnm r.devnm = true ∧ List.take 2 r.devnm.data = ['m', 'd'] ∧
          r.devnm.data.length < 32 ∧
          ∃ c rest2, List.drop 2 r.devnm.data = c :: rest2 ∧ (c = '_' ∨ c.isDigit = true)) ∧
      (∀ (all : List MdstatEnt) (line : List String) (t : String) (rest : List String),
        line = t :: rest → valid_devnm t = false → process_line all line = all) := by
  constructor
  · intro lines start r hr
    have hv : valid_devnm r.devnm = true := by
      refine mdstat_read_mem_inv (fun e => valid_devnm e.devnm = true) (fun _ => True)
        ?_ ?_ lines start r (by simp) hr
      · intro all w next st _ hp
        rw [classify_word_devnm]; exact hp
      · intro t ht; exact ht
    rcases valid_devnm_spec r.devnm hv with ⟨h1, h2, h3⟩
    exact ⟨hv, h1, h2, h3⟩
  · intro all line t rest hline hvalid
    subst hline
    by_cases hh : t = "Personalities" ∨ t = "read_ahead" ∨ t = "unused"
    · rw [process_line, if_pos hh]
    · rw [process_line, if_neg hh, if_pos hvalid]

/-- Witness for C6: the record `md3` of the S4 snapshot has a valid array
name, and the line `foo : bar` (invalid first token) adds no record. -/
theorem mdstat_read_devnm_valid_witness :
    ent_md3 ∈ mdstat_read s4_lines false ∧ valid_devnm ent_md3.devnm = true ∧
      process_line [] ["foo", ":", "bar"] = [] := by
  have hmem : ent_md3 ∈ mdstat_read s4_lines false := by
    rw [s4_lines_eval]; simp
  exact ⟨hmem, (mdstat_read_devnm_valid.1 s4_lines false ent_md3 hmem).1,
    mdstat_read_devnm_valid.2 [] _ "foo" [":", "bar"] rfl (by decide)⟩

/-- C7: in every record of every snapshot, `devcnt` equals the number of
parsed members. -/
theorem mdstat_read_devcnt_eq_members :
    ∀ (lines : List (List String)) (start : Bool) (r : MdstatEnt),
      r ∈ mdstat_read lines start → r.devcnt = r.members.length := by
  intro lines start r hr
  refine mdstat_read_mem_inv (fun e => e.devcnt = e.members.length) (fun _ => True)
    ?_ ?_ lines start r (by simp) hr
  · intro all w next st _ hp; exact classify_word_devcnt all w next st hp
  · intro t _; rfl

/-- Witness for C7: the S4 record `md3` has `devcnt = 2` and two members. -/
theorem mdstat_read_devcnt_eq_members_witness :
    ent_md3 ∈ mdstat_read s4_lines false ∧ ent_md3.devcnt = ent_md3.members.length := by
  have hmem : ent_md3 ∈ mdstat_read s4_lines false := by
    rw [s4_lines_eval]; simp
  exact ⟨hmem, mdstat_read_devcnt_eq_members s4_lines false ent_md3 hmem⟩

/-- C4 as amended: for every record of every snapshot with a pattern, the
pattern is nonempty and its FIRST character is `U` or `_` (the parser checks
only the first character; later characters are copied unchecked, as the
counterexample shows). -/
theorem mdstat_read_pattern_first_char :
    ∀ (lines : List (List String)) (start : Bool) (r : MdstatEnt) (p : String),
      r ∈ mdstat_read lines start → r.pattern = Option.some p →
      ¬ p.data = [] ∧ (p.data.head? = Option.some 'U' ∨ p.data.head? = Option.some '_') := by
  intro lines start r p hr hp
  refine (mdstat_read_mem_inv pattern_ok (fun _ => True) ?_ ?_ lines start r (by simp) hr) p hp
  · intro all w next st _ hp2; exact classify_word_pattern all w next st hp2
  · intro t _
    intro q hq
    simp [init_ent] at hq

/-- Witness for C4 (amended) at the `[U_X]` input: the pattern `U_X` is
nonempty and starts with `U`. -/
theorem mdstat_read_pattern_first_char_witness :
    ent_junk_pattern.pattern = Option.some "U_X" ∧
      ¬ ("U_X" : String).data = [] ∧
        (("U_X" : String).data.head? = Option.some 'U' ∨
          ("U_X" : String).data.head? = Option.some '_') := by
  have hmem : ent_junk_pattern ∈
      mdstat_read [["md0", ":", "active", "raid1", "sda1[0]", "100", "blocks", "[U_X]"]] false := by
    rw [junk_pattern_eval]; simp
  exact ⟨rfl, mdstat_read_pattern_first_char _ false ent_junk_pattern "U_X" hmem rfl⟩

/-- C5 as amended: for inputs containing no bare percent token (a token
whose first character is a digit and whose last character is `%` — the
shape of rule 12, which the counterexample shows can set a percent with no
resync kind), every record with an integer percent in 0..100 has a resync
kind other than `none`. -/
theorem mdstat_read_percent_resync_kind :
    ∀ (lines : List (List String)) (start : Bool) (r : MdstatEnt),
      (∀ l ∈ lines, ∀ w ∈ l, bare_percent w = false) →
      r ∈ mdstat_read lines start → 0 ≤ r.percent → r.percent ≤ 100 →
      ¬ r.resync = ResyncKind.none := by
  intro lines start r hq hr
  refine mdstat_read_mem_inv percent_kind_ok (fun w => bare_percent w = false)
    ?_ ?_ lines start r hq hr
  · intro all w next st hqw hp; exact classify_word_percent all w next st hqw hp
  · intro t _
    intro h0 h100
    exfalso
    have hpc : (init_ent t).percent = RESYNC_NONE := rfl
    rw [hpc, RESYNC_NONE] at h0
    omega

/-- Witness for C5 (amended) at `md0 : active raid1 sda1[0] 128 blocks
resync=37%`: no token is a bare percent token, the parsed percent is 37,
and the resync kind is `resync`, not `none`. -/
theorem mdstat_read_percent_resync_kind_witness :
    (∀ l ∈ [["md0", ":", "active", "raid1", "sda1[0]", "128", "blocks", "resync=37%"]],
        ∀ w ∈ l, bare_percent w = false) ∧
      ent_resync37.percent = 37 ∧
      ¬ ent_resync37.resync = ResyncKind.none := by
  have hmem : ent_resync37 ∈
      mdstat_read [["md0", ":", "active", "raid1", "sda1[0]", "128", "blocks", "resync=37%"]] false := by
    rw [resync37_eval]; simp
  refine ⟨by decide, rfl, ?_⟩
  exact mdstat_read_percent_resync_kind _ false ent_resync37 (by decide) hmem (by decide) (by decide)

/-- Modelled from the spec (§4.1, §4.2): the state the member-collection
rules depend on — the tri-state activity, whether the personality string
has been set (rule 4), and the sticky `in_devs` flag.  A second,
spec-level definition used only to state the refinement claim about the
order of the member list. -/
structure DevScanState where
  active : Int
  level : Option String
  in_devs : Bool

/-- Modelled from the spec (§4.1 rule 6): the member names one token
contributes, in token order, together with the flag updates and the loop
directive of the same token.  Mirrors the branch structure of the token
classifier but collects names by APPENDING instead of prepending. -/
def scan_word (w : String) (next : Option String) (st : DevScanState) :
    List String × DevScanState × WordDirective :=
  let cs := w.data
  if w = "active" then ([], { st with active := 1 }, WordDirective.cont)
  else if w = "inactive" then ([], { st with active := 0, in_devs := true }, WordDirective.cont)
  else if w = "bitmap:" then ([], st, WordDirective.stop)
  else if st.active > 0 ∧ st.level = Option.none ∧ cs.head? ≠ Option.some '(' then
    ([], { st with level := Option.some w, in_devs := true }, WordDirective.cont)
  else if st.in_devs = true ∧ w = "blocks" then ([], { st with in_devs := false }, WordDirective.cont)
  else if st.in_devs = true then
    match cs.findIdx? (fun c => c = '[') with
    | Option.some ep => ([String.mk (cs.take ep)], st, WordDirective.cont)
    | Option.none => ([], st, WordDirective.cont)
  else if w = "super" then
    match next with
    | Option.some _ => ([], st, WordDirective.skip)
    | Option.none => ([], st, WordDirective.cont)
  else ([], st, WordDirective.cont)

/-- Modelled from the spec (§4.1 rule 6): the member-device names of a
whole line, in the order in which the member tokens appear on the line. -/
def line_member_names : List String → DevScanState → List String
  | [], _ => []
  | w :: rest, st =>
      match scan_word w rest.head? st with
      | (ns, _, WordDirective.stop) => ns
      | (ns, st2, WordDirective.cont) => ns ++ line_member_names rest st2
      | (ns, st2, WordDirective.skip) =>
          match rest with
          | [] => ns
          | _ :: rest2 => ns ++ line_member_names rest2 st2

/-- The flags of a parser state that the member-collection rules read. -/
def proj_state (s : ParseState) : DevScanState :=
  { active := s.ent.active, level := s.ent.level, in_devs := s.in_devs }

lemma line_member_names_cons (w : String) (rest : List String) (st : DevScanState) :
    line_member_names (w :: rest) st =
      match scan_word w rest.head? st with
      | (ns, _, WordDirective.stop) => ns
      | (ns, st2, WordDirective.cont) => ns ++ line_member_names rest st2
      | (ns, st2, WordDirective.skip) =>
          match rest with
          | [] => ns
          | _ :: rest2 => ns ++ line_member_names rest2 st2 := by
  cases rest with
  | nil =>
      rcases h : scan_word w Option.none st with ⟨ns, st2, d⟩
      cases d <;> simp [line_member_names, h]
  | cons v rest2 =>
      rcases h : scan_word w (Option.some v) st with ⟨ns, st2, d⟩
      cases d <;> simp [line_member_names, h]

lemma scan_word_classify (all : List MdstatEnt) (w : String) (next : Option String) (s : ParseState) :
    (classify_word all w next s).1.ent.members
        = ((scan_word w next (proj_state s)).1).reverse ++ s.ent.members ∧
      proj_state (classify_word all w next s).1 = (scan_word w next (proj_state s)).2.1 ∧
      (classify_word all w next s).2 = (scan_word w next (proj_state s)).2.2 := by
  by_cases c1 : w = "active"
  · simp [classify_word, scan_word, proj_state, c1]
  by_cases c2 : w = "inactive"
  · simp [classify_word, scan_word, proj_state, c1, c2]
  by_cases c3 : w = "bitmap:"
  · simp [classify_word, scan_word, proj_state, c1, c2, c3]
  have c4same : ((proj_state s).active > 0 ∧ (proj_state s).level = Option.none ∧
      w.data.head? ≠ Option.some '(') ↔
      (s.ent.active > 0 ∧ s.ent.level = Option.none ∧ w.data.head? ≠ Option.some '(') :=
    Iff.rfl
  have c5same : ((proj_state s).in_devs = true ∧ w = "blocks") ↔
      (s.in_devs = true ∧ w = "blocks") := Iff.rfl
  by_cases c4 : s.ent.active > 0 ∧ s.ent.level = Option.none ∧ w.data.head? ≠ Option.some '('
  · have c4p : ((proj_state s).active > 0 ∧ (proj_state s).level = Option.none ∧
        w.data.head? ≠ Option.some '(') := c4same.mpr c4
    simp only [classify_word, scan_word]
    rw [if_neg c1, if_neg c2, if_neg c3, if_pos c4]
    rw [if_neg c1, if_neg c2, if_neg c3, if_pos c4p]
    simp [proj_state]
  have c4p : ¬((proj_state s).active > 0 ∧ (proj_state s).level = Option.none ∧
      w.data.head? ≠ Option.some '(') := fun hc => c4 (c4same.mp hc)
  by_cases c5 : s.in_devs = true ∧ w = "blocks"
  · have c5p : ((proj_state s).in_devs = true ∧ w = "blocks") := c5same.mpr c5
    simp only [classify_word, scan_word]
    rw [if_neg c1, if_neg c2, if_neg c3, if_neg c4, if_pos c5]
    rw [if_neg c1, if_neg c2, if_neg c3, if_neg c4p, if_pos c5p]
    simp [proj_state]
  have c5p : ¬((proj_state s).in_devs = true ∧ w = "blocks") := fun hc => c5 (c5same.mp hc)
  by_cases c6 : s.in_devs = true
  · have c6p : (proj_state s).in_devs = true := c6
    rcases hep : w.data.findIdx? (fun c => c = '[') with _ | ep
    · simp only [classify_word, scan_word, add_member_devname]
      rw [if_neg c1, if_neg c2, if_neg c3, if_neg c4, if_neg c5, if_pos c6]
      rw [if_neg c1, if_neg c2, if_neg c3, if_neg c4p, if_neg c5p, if_pos c6p]
      rw [hep]
      simp [proj_state]
    · by_cases cmd : List.take 2 w.data = ['m', 'd']
      · simp only [classify_word, scan_word, add_member_devname]
        rw [if_neg c1, if_neg c2, if_neg c3, if_neg c4, if_neg c5, if_pos c6]
        rw [if_neg c1, if_neg c2, if_neg c3, if_neg c4p, if_neg c5p, if_pos c6p]
        rw [hep]
        simp only []
        rw [if_pos cmd]
        simp [proj_state]
      · simp only [classify_word, scan_word, add_member_devname]
        rw [if_neg c1, if_neg c2, if_neg c3, if_neg c4, if_neg c5, if_pos c6]
        rw [if_neg c1, if_neg c2, if_neg c3, if_neg c4p, if_neg c5p, if_pos c6p]
        rw [hep]
        simp only []
        rw [if_neg cmd]
        simp [proj_state]
  have c6p : ¬ (proj_state s).in_devs = true := c6
  by_cases c7 : w = "super"
  · rcases hnext : next with _ | v
    · simp only [classify_word, scan_word]
      rw [if_neg c1, if_neg c2, if_neg c3, if_neg c4, if_neg c5, if_neg c6, if_pos c7]
      rw [if_neg c1, if_neg c2, if_neg c3, if_neg c4p, if_neg c5p, if_neg c6p, if_pos c7]
      simp [proj_state]
    · simp only [classify_word, scan_word]
      rw [if_neg c1, if_neg c2, if_neg c3, if_neg c4, if_neg c5, if_neg c6, if_pos c7]
      rw [if_neg c1, if_neg c2, if_neg c3, if_neg c4p, if_neg c5p, if_neg c6p, if_pos c7]
      simp [proj_state]
  have hscan : scan_word w next (proj_state s) = ([], proj_state s, WordDirective.cont) := by
    simp only [scan_word]
    rw [if_neg c1, if_neg c2, if_neg c3, if_neg c4p, if_neg c5p, if_neg c6p, if_neg c7]
  rw [hscan]
  by_cases c8 : w.data.head? = Option.some '[' ∧ (w.data[1]?.any Char.isDigit) = true
  · have h : classify_word all w next s =
        ({ s with ent := { s.ent with raid_disks := catoi (List.drop 1 w.data) } },
          WordDirective.cont) := by
      simp only [classify_word]
      rw [if_neg c1, if_neg c2, if_neg c3, if_neg c4, if_neg c5, if_neg c6, if_neg c7, if_pos c8]
    rw [h]; exact ⟨rfl, rfl, rfl⟩
  by_cases c9 : s.ent.pattern = Option.none ∧ w.data.head? = Option.some '[' ∧
      (w.data[1]? = Option.some 'U' ∨ w.data[1]? = Option.some '_')
  · have h : classify_word all w next s =
        ({ s with
            ent := { s.ent with
                      pattern := Option.some (String.mk
                        (if (List.drop 1 w.data).getLast? = Option.some ']' then
                          (List.drop 1 w.data).dropLast
                         else List.drop 1 w.data)) } }, WordDirective.cont) := by
      simp only [classify_word]
      rw [if_neg c1, if_neg c2, if_neg c3, if_neg c4, if_neg c5, if_neg c6, if_neg c7,
        if_neg c8, if_pos c9]
    rw [h]; exact ⟨rfl, rfl, rfl⟩
  by_cases c10 : s.ent.percent = RESYNC_NONE ∧ List.take 2 w.data = ['r', 'e'] ∧
      w.data.getLast? = Option.some '%' ∧ w.data.contains '=' = true
  · have h : classify_word all w next s =
        ({ s with
            ent := { s.ent with
                      percent := catoi (List.drop 1 (List.dropWhile (fun c => c ≠ '=') w.data)),
                      resync := if List.take 6 w.data = "resync".data then ResyncKind.resync
                                else if List.take 7 w.data = "reshape".data then ResyncKind.reshape
                                else ResyncKind.recovery } }, WordDirective.cont) := by
      simp only [classify_word]
      rw [if_neg c1, if_neg c2, if_neg c3, if_neg c4, if_neg c5, if_neg c6, if_neg c7,
        if_neg c8, if_neg c9, if_pos c10]
    rw [h]; exact ⟨rfl, rfl, rfl⟩
  by_cases c11 : s.ent.percent = RESYNC_NONE ∧
      (w.data.head? = Option.some 'r' ∨ w.data.head? = Option.some 'c')
  · have h : classify_word all w next s =
        ({ s with
            ent := { s.ent with
            resync :=
              (if List.take 5 w.data = "check".data then ResyncKind.check
               else if List.take 8 w.data = "recovery".data then ResyncKind.recovery
               else if List.take 7 w.data = "reshape".data then ResyncKind.reshape
               else if List.take 6 w.data = "resync".data then ResyncKind.resync
               else s.ent.resync),
            percent :=
              (if w.data.length > 7 ∧ List.drop (w.data.length - 7) w.data = "=REMOTE".data then
                RESYNC_REMOTE
               else if w.data.length > 8 ∧ List.drop (w.data.length - 8) w.data = "=PENDING".data then
                RESYNC_PENDING
               else if w.data.length > 8 ∧ List.drop (w.data.length - 8) w.data = "=DELAYED".data then
                RESYNC_DELAYED
               else s.ent.percent) } }, WordDirective.cont) := by
      simp only [classify_word]
      rw [if_neg c1, if_neg c2, if_neg c3, if_neg c4, if_neg c5, if_neg c6, if_neg c7,
        if_neg c8, if_neg c9, if_neg c10, if_pos c11]
    rw [h]; exact ⟨rfl, rfl, rfl⟩
  by_cases c12 : s.ent.percent = RESYNC_NONE ∧
      (w.data.head?.any (fun c => '0' ≤ c ∧ c ≤ '9')) = true ∧
      w.data.getLast? = Option.some '%'
  · have h : classify_word all w next s =
        ({ s with ent := { s.ent with percent := catoi w.data } }, WordDirective.cont) := by
      simp only [classify_word]
      rw [if_neg c1, if_neg c2, if_neg c3, if_neg c4, if_neg c5, if_neg c6, if_neg c7,
        if_neg c8, if_neg c9, if_neg c10, if_neg c11, if_pos c12]
    rw [h]; exact ⟨rfl, rfl, rfl⟩
  · have h : classify_word all w next s = (s, WordDirective.cont) := by
      simp only [classify_word]
      rw [if_neg c1, if_neg c2, if_neg c3, if_neg c4, if_neg c5, if_neg c6, if_neg c7,
        if_neg c8, if_neg c9, if_neg c10, if_neg c11, if_neg c12]
    rw [h]; exact ⟨rfl, rfl, rfl⟩

lemma classify_tokens_members (all : List MdstatEnt) (ts : List String) (s : ParseState) :
    (classify_tokens all ts s).ent.members
      = (line_member_names ts (proj_state s)).reverse ++ s.ent.members := by
  have aux : ∀ (n : Nat) (all : List MdstatEnt) (ts : List String) (s : ParseState),
      ts.length ≤ n →
      (classify_tokens all ts s).ent.members
        = (line_member_names ts (proj_state s)).reverse ++ s.ent.members := by
    intro n
    induction n with
    | zero =>
        intro all ts s hlen
        cases ts with
        | nil => simp [classify_tokens, line_member_names]
        | cons w rest => simp at hlen
    | succ n ih =>
        intro all ts s hlen
        cases ts with
        | nil => simp [classify_tokens, line_member_names]
        | cons w rest =>
            have hlen2 : rest.length ≤ n := by simp at hlen; omega
            rw [classify_tokens_cons, line_member_names_cons]
            obtain ⟨hm, hproj, hdir⟩ := scan_word_classify all w rest.head? s
            rcases hcw : classify_word all w rest.head? s with ⟨s2, d⟩
            rcases hsw : scan_word w rest.head? (proj_state s) with ⟨ns, st2, d2⟩
            rw [hcw, hsw] at hm hproj hdir
            simp only at hm hproj hdir
            subst hdir
            cases d with
            | stop => simpa using hm
            | cont =>
                show (classify_tokens all rest s2).ent.members = _
                rw [ih all rest s2 hlen2, hproj, hm]
                simp
            | skip =>
                cases rest with
                | nil => simpa using hm
                | cons v rest2 =>
                    show (classify_tokens all rest2 s2).ent.members = _
                    have hlen3 : rest2.length ≤ n := by simp at hlen2; omega
                    rw [ih all rest2 s2 hlen3, hproj, hm]
                    simp
  exact aux ts.length all ts s (Nat.le_refl _)

/-- C10: `add_member_devname` prepends each new member at the list head, so
over a whole line the member list of the parsed record is the REVERSE of
the order in which the member tokens appear: the spec-level collector
`line_member_names` lists the names in token order, and the record stores
their reversal (in particular, the first element of `members` comes from
the last member token of the line). -/
theorem members_are_reverse_of_token_order :
    (∀ (m : List String) (name : String) (t : Nat),
        name.data.findIdx? (fun c => c = '[') = Option.some t →
        add_member_devname m name = (String.mk (name.data.take t) :: m, 1)) ∧
      ∀ (all : List MdstatEnt) (ts : List String) (s : ParseState),
        (classify_tokens all ts s).ent.members
          = (line_member_names ts (proj_state s)).reverse ++ s.ent.members := by
  constructor
  · intro m name t ht
    simp [add_member_devname, ht]
  · intro all ts s
    exact classify_tokens_members all ts s

/-- Witness for C10: applied to the member token `sda1[0]` over the list
`[sdb1]`, and to the token sequence of the S4 line, where the collector
order is `md1, md0` and the stored members are `md0, md1`. -/
theorem members_are_reverse_of_token_order_witness :
    add_member_devname ["sdb1"] "sda1[0]" = (String.mk ("sda1[0]".data.take 4) :: ["sdb1"], 1) ∧
      (classify_tokens [] [":", "active", "raid0", "md1[1]", "md0[0]", "2097152", "blocks"]
          { ent := init_ent "md3", in_devs := false, insert_here := Option.none }).ent.members
        = (line_member_names [":", "active", "raid0", "md1[1]", "md0[0]", "2097152", "blocks"]
            (proj_state { ent := init_ent "md3", in_devs := false, insert_here := Option.none })).reverse
          ++ (init_ent "md3").members :=
  ⟨members_are_reverse_of_token_order.1 ["sdb1"] "sda1[0]" 4 (by decide),
    members_are_reverse_of_token_order.2 [] _ _⟩

lemma scan_insert_ge (old : Option Nat) (nm : String) (i : Nat) (l : List MdstatEnt) :
    i ≤ scan_insert old nm i l := by
  induction l generalizing i with
  | nil => simp [scan_insert]
  | cons e rest ih =>
      simp only [scan_insert]
      split_ifs with h1 h2
      · exact Nat.le_refl i
      · exact Nat.le_refl i
      · exact Nat.le_trans (Nat.le_succ i) (ih (i + 1))

lemma scan_insert_le_old (nm : String) (o i : Nat) (l : List MdstatEnt) (hio : i ≤ o) :
    scan_insert (Option.some o) nm i l ≤ o := by
  induction l generalizing i with
  | nil => simpa [scan_insert] using hio
  | cons e rest ih =>
      simp only [scan_insert]
      split_ifs with h1 h2
      · exact hio
      · exact hio
      · refine ih (i + 1) ?_
        have hne : ¬ o = i := fun hoi => h1 (by rw [hoi])
        omega

lemma scan_insert_take_no_match (old : Option Nat) (nm : String) (i : Nat) (l : List MdstatEnt) :
    ∀ e ∈ List.take (scan_insert old nm i l - i) l, ¬ e.devnm = nm := by
  induction l generalizing i with
  | nil => simp
  | cons y rest ih =>
      simp only [scan_insert]
      split_ifs with h1 h2
      · simp
      · simp
      · have hge : i + 1 ≤ scan_insert old nm (i + 1) rest := scan_insert_ge old nm (i + 1) rest
        rw [show scan_insert old nm (i + 1) rest - i
            = (scan_insert old nm (i + 1) rest - (i + 1)) + 1 from by omega]
        rw [List.take_succ_cons]
        intro e he
        rcases List.mem_cons.mp he with rfl | he2
        · exact h2
        · exact ih (i + 1) e he2

lemma mem_take_of_le {α : Type} (l : List α) (q p : Nat) (hqp : q ≤ p) (a : α)
    (ha : a ∈ List.take q l) : a ∈ List.take p l := by
  have hq : List.take q l = List.take q (List.take p l) := by
    rw [List.take_take, Nat.min_eq_left hqp]
  rw [hq] at ha
  exact List.take_subset _ _ ha

/-- The splice invariant maintained along one line: for every md-prefixed
member collected so far, no entry of the snapshot list strictly before the
remembered insertion slot carries that member name — so the slot lies at or
before the first occurrence of every md member already present. -/
def no_match_before (all : List MdstatEnt) (s : ParseState) : Prop :=
  ∀ nm ∈ s.ent.members, List.take 2 nm.data = ['m', 'd'] →
    match s.insert_here with
    | Option.some p => ∀ e ∈ List.take p all, ¬ e.devnm = nm
    | Option.none => ∀ e ∈ all, ¬ e.devnm = nm

lemma classify_word_no_match (all : List MdstatEnt) (w : String) (next : Option String)
    (s : ParseState) (h : no_match_before all s) :
    no_match_before all (classify_word all w next s).1 := by
  have he := classify_word_effect all w next s
  generalize hres : classify_word all w next s = r at he
  cases he with
  | member_scan name =>
      intro nm hnm hmd
      show ∀ e ∈ List.take (scan_insert s.insert_here name 0 all) all, ¬ e.devnm = nm
      intro e he2
      rcases List.mem_cons.mp hnm with rfl | hnm2
      · exact scan_insert_take_no_match s.insert_here nm 0 all e (by simpa using he2)
      · have hold := h nm hnm2 hmd
        rcases hih : s.insert_here with _ | p
        · rw [hih] at hold
          exact hold e (List.take_subset _ _ he2)
        · rw [hih] at hold
          have hle : scan_insert s.insert_here name 0 all ≤ p := by
            rw [hih]
            exact scan_insert_le_old name p 0 all (Nat.zero_le p)
          exact hold e (mem_take_of_le all _ p hle e he2)
  | member_noscan name hmdneg =>
      intro nm hnm hmd
      rcases List.mem_cons.mp hnm with rfl | hnm2
      · exact absurd hmd hmdneg
      · exact h nm hnm2 hmd
  | _ => exact h

/-- The record a line would parse to, regardless of the surrounding
snapshot: the token loop's record fields do not depend on the list built so
far (only `insert_here` does, witnessed by `classify_tokens_members` and
its relatives), so the empty snapshot serves as reference. -/
def parse_ent (line : List String) : MdstatEnt :=
  match line with
  | [] => init_ent ""
  | t :: rest =>
      (classify_tokens [] rest
        { ent := init_ent t, in_devs := false, insert_here := Option.none }).ent

lemma classify_tokens_devnm (all : List MdstatEnt) (ts : List String) (s : ParseState) :
    (classify_tokens all ts s).ent.devnm = s.ent.devnm :=
  classify_tokens_inv all (fun st => st.ent.devnm = s.ent.devnm) (fun _ => True)
    (fun w next st _ hp => by
      show (classify_word all w next st).1.ent.devnm = s.ent.devnm
      rw [classify_word_devnm]; exact hp) ts s (fun _ _ => trivial) rfl

lemma classify_members_eq_parse_ent (all : List MdstatEnt) (t : String) (ws : List String) :
    (classify_tokens all ws
        { ent := init_ent t, in_devs := false, insert_here := Option.none }).ent.members
      = (parse_ent (t :: ws)).members := by
  rw [parse_ent, classify_tokens_members, classify_tokens_members]

lemma process_line_invalid (all : List MdstatEnt) (t : String) (ws : List String)
    (hv : valid_devnm t = false) : process_line all (t :: ws) = all := by
  by_cases hh : t = "Personalities" ∨ t = "read_ahead" ∨ t = "unused"
  · rw [process_line, if_pos hh]
  · rw [process_line, if_neg hh, if_pos hv]

/-- Orderly input: every accepted line carries a fresh array name, and every
md-prefixed member name of an accepted line names an array accepted EARLIER
in the input (`seen` accumulates the accepted first tokens). -/
def orderly_input : List (List String) → List String → Bool
  | [], _ => true
  | line :: rest, seen =>
      match line with
      | [] => orderly_input rest seen
      | t :: _ =>
          if valid_devnm t = true then
            (decide (¬ t ∈ seen) &&
              (parse_ent line).members.all
                (fun nm => !(decide (List.take 2 nm.data = ['m', 'd'])) || decide (nm ∈ seen))) &&
              orderly_input rest (t :: seen)
          else orderly_input rest seen

/-- Invariant of the snapshot under construction: no earlier record is a
member-array of a later one, every record name is valid, and every
md-prefixed member of every record names an already-accepted line. -/
def snapshot_inv (seen : List String) (all : List MdstatEnt) : Prop :=
  all.Pairwise (fun a b => ¬ a.devnm ∈ b.members) ∧
    (∀ e ∈ all, valid_devnm e.devnm = true) ∧
    (∀ e ∈ all, ∀ nm ∈ e.members, List.take 2 nm.data = ['m', 'd'] → nm ∈ seen)

lemma snapshot_inv_mono (seen seen' : List String) (all : List MdstatEnt)
    (hsub : ∀ x ∈ seen, x ∈ seen') (h : snapshot_inv seen all) : snapshot_inv seen' all :=
  ⟨h.1, h.2.1, fun e he nm hnm hmd => hsub _ (h.2.2 e he nm hnm hmd)⟩

lemma insert_at_eq {α : Type} (l : List α) (p : Nat) (x : α) (hp : p ≤ l.length) :
    insert_at l p x = List.take p l ++ x :: List.drop p l := by
  induction l generalizing p with
  | nil =>
      cases p with
      | zero => simp [insert_at]
      | succ m => simp at hp
  | cons y t ih =>
      cases p with
      | zero => simp [insert_at]
      | succ m => simp [insert_at, ih m (by simpa using hp)]

lemma process_line_step (all : List MdstatEnt) (seen : List String) (t : String) (ws : List String)
    (hinv : snapshot_inv seen all)
    (hv : valid_devnm t = true)
    (hnew : ¬ t ∈ seen)
    (hmems : ∀ nm ∈ (parse_ent (t :: ws)).members, List.take 2 nm.data = ['m', 'd'] → nm ∈ seen) :
    snapshot_inv (t :: seen) (process_line all (t :: ws)) := by
  obtain ⟨hPW, hVal, hM⟩ := hinv
  have hh : ¬ (t = "Personalities" ∨ t = "read_ahead" ∨ t = "unused") := by
    intro hcon
    rcases hcon with h | h | h <;> subst h <;> exact absurd hv (by decide)
  have hvf : ¬ valid_devnm t = false := by rw [hv]; simp
  rw [process_line, if_neg hh, if_neg hvf]
  dsimp only
  have hdev : (classify_tokens all ws
      { ent := init_ent t, in_devs := false, insert_here := Option.none }).ent.devnm = t := by
    rw [classify_tokens_devnm]
    rfl
  have hmem_eq : (classify_tokens all ws
      { ent := init_ent t, in_devs := false, insert_here := Option.none }).ent.members
      = (parse_ent (t :: ws)).members := classify_members_eq_parse_ent all t ws
  have hW : no_match_before all (classify_tokens all ws
      { ent := init_ent t, in_devs := false, insert_here := Option.none }) := by
    refine classify_tokens_inv all (no_match_before all) (fun _ => True) ?_ ws _ (fun _ _ => trivial) ?_
    · intro w next st _ hp; exact classify_word_no_match all w next st hp
    · intro nm hnm hmd
      simp [init_ent] at hnm
  set sf := classify_tokens all ws
      { ent := init_ent t, in_devs := false, insert_here := Option.none } with hsf
  have htake2 : List.take 2 t.data = ['m', 'd'] := (valid_devnm_spec t hv).1
  have hXold : ∀ b ∈ all, ¬ sf.ent.devnm ∈ b.members := by
    intro b hb hcon
    rw [hdev] at hcon
    exact hnew (hM b hb t hcon htake2)
  have hXvalid : valid_devnm sf.ent.devnm = true := by rw [hdev]; exact hv
  have hXmem : ∀ nm ∈ sf.ent.members, List.take 2 nm.data = ['m', 'd'] → nm ∈ t :: seen := by
    intro nm hnm hmd
    rw [hmem_eq] at hnm
    exact List.mem_cons_of_mem _ (hmems nm hnm hmd)
  have append_case : (∀ a ∈ all, ¬ a.devnm ∈ sf.ent.members) →
      snapshot_inv (t :: seen) (all ++ [sf.ent]) := by
    intro habsent
    refine ⟨?_, ?_, ?_⟩
    · rw [List.pairwise_append]
      refine ⟨hPW, by simp, ?_⟩
      intro a ha b hb
      rw [List.mem_singleton] at hb
      subst hb
      exact habsent a ha
    · intro e he
      rcases List.mem_append.mp he with he | he
      · exact hVal e he
      · rw [List.mem_singleton] at he; subst he; exact hXvalid
    · intro e he nm hnm hmd
      rcases List.mem_append.mp he with he | he
      · exact List.mem_cons_of_mem _ (hM e he nm hnm hmd)
      · rw [List.mem_singleton] at he; subst he; exact hXmem nm hnm hmd
  rcases hih : sf.insert_here with _ | p
  · refine append_case ?_
    intro a ha hcon
    have hamd : List.take 2 a.devnm.data = ['m', 'd'] := (valid_devnm_spec _ (hVal a ha)).1
    have hw := hW a.devnm hcon hamd
    rw [hih] at hw
    exact hw a ha rfl
  · show snapshot_inv (t :: seen) (if p < all.length then insert_at all p sf.ent else all ++ [sf.ent])
    by_cases hp : p < all.length
    · rw [if_pos hp]
      have hsplice : ∀ a ∈ List.take p all, ¬ a.devnm ∈ sf.ent.members := by
        intro a ha hcon
        have hamd : List.take 2 a.devnm.data = ['m', 'd'] := (valid_devnm_spec _
          (hVal a (List.take_subset _ _ ha))).1
        have hw := hW a.devnm hcon hamd
        rw [hih] at hw
        exact hw a ha rfl
      rw [insert_at_eq all p sf.ent (Nat.le_of_lt hp)]
      have hcross : ∀ a ∈ List.take p all, ∀ b ∈ List.drop p all, ¬ a.devnm ∈ b.members := by
        have hPW2 : (List.take p all ++ List.drop p all).Pairwise
            (fun a b => ¬ a.devnm ∈ b.members) := by
          rw [List.take_append_drop]; exact hPW
        exact (List.pairwise_append.mp hPW2).2.2
      refine ⟨?_, ?_, ?_⟩
      · rw [List.pairwise_append]
        refine ⟨hPW.sublist (List.take_sublist p all), ?_, ?_⟩
        · rw [List.pairwise_cons]
          refine ⟨?_, hPW.sublist (List.drop_sublist p all)⟩
          intro b hb
          exact hXold b (List.drop_subset _ _ hb)
        · intro a ha b hb
          rcases List.mem_cons.mp hb with rfl | hb2
          · exact hsplice a ha
          · exact hcross a ha b hb2
      · intro e he
        rcases List.mem_append.mp he with he | he
        · exact hVal e (List.take_subset _ _ he)
        · rcases List.mem_cons.mp he with rfl | he2
          · exact hXvalid
          · exact hVal e (List.drop_subset _ _ he2)
      · intro e he nm hnm hmd
        rcases List.mem_append.mp he with he | he
        · exact List.mem_cons_of_mem _ (hM e (List.take_subset _ _ he) nm hnm hmd)
        · rcases List.mem_cons.mp he with rfl | he2
          · exact hXmem nm hnm hmd
          · exact List.mem_cons_of_mem _ (hM e (List.drop_subset _ _ he2) nm hnm hmd)
    · rw [if_neg hp]
      refine append_case ?_
      intro a ha hcon
      have hamd : List.take 2 a.devnm.data = ['m', 'd'] := (valid_devnm_spec _ (hVal a ha)).1
      have hw := hW a.devnm hcon hamd
      rw [hih] at hw
      refine hw a ?_ rfl
      rw [List.take_of_length_le (by omega)]
      exact ha

lemma foldl_orderly (lines : List (List String)) :
    ∀ (seen : List String) (all : List MdstatEnt),
      orderly_input lines seen = true → snapshot_inv seen all →
      (lines.foldl process_line all).Pairwise (fun a b => ¬ a.devnm ∈ b.members) := by
  induction lines with
  | nil => intro seen all _ hinv; simpa using hinv.1
  | cons line rest ih =>
      intro seen all ho hinv
      rw [List.foldl_cons]
      cases line with
      | nil =>
          simp only [orderly_input] at ho
          exact ih seen all ho hinv
      | cons t ws =>
          simp only [orderly_input] at ho
          by_cases hv : valid_devnm t = true
          · rw [if_pos hv] at ho
            rw [Bool.and_eq_true, Bool.and_eq_true] at ho
            obtain ⟨⟨h1, h2⟩, h3⟩ := ho
            have hnew : ¬ t ∈ seen := of_decide_eq_true h1
            have hmems : ∀ nm ∈ (parse_ent (t :: ws)).members,
                List.take 2 nm.data = ['m', 'd'] → nm ∈ seen := by
              intro nm hnm hmd
              have hx := List.all_eq_true.mp h2 nm hnm
              rcases (Bool.or_eq_true _ _).mp hx with hy | hy
              · have : decide (List.take 2 nm.data = ['m', 'd']) = false := by
                  simpa using hy
                exact absurd hmd (of_decide_eq_false this)
              · exact of_decide_eq_true hy
            exact ih (t :: seen) _ h3 (process_line_step all seen t ws hinv hv hnew hmems)
          · rw [if_neg hv] at ho
            have hvf : valid_devnm t = false := by
              cases hb : valid_devnm t
              · rfl
              · exact absurd hb hv
            rw [process_line_invalid all t ws hvf]
            exact ih seen all ho hinv

/-- C1 as amended: the claim's ordering invariant (no earlier record is a
member-array of a later record, i.e. composites precede their components)
holds for the `start = false` snapshot on orderly inputs — those whose
accepted lines carry pairwise-distinct names and whose md-member tokens
only reference arrays accepted earlier in the input.  It does NOT hold
with `start = true` (the reversal flips it, see the counterexample), and
it fails for `start = false` on inputs with forward member references. -/
theorem mdstat_read_orderly_pairwise (lines : List (List String))
    (h : orderly_input lines [] = true) :
    (mdstat_read lines false).Pairwise (fun a b => ¬ a.devnm ∈ b.members) := by
  have hbase : snapshot_inv [] [] := ⟨List.Pairwise.nil, by simp, by simp⟩
  have hall := foldl_orderly lines [] [] h hbase
  simpa [mdstat_read] using hall

/-- Witness for C1 (amended) at the S4 three-line input, which is orderly:
names `md0, md1, md3` are distinct and `md3`'s members `md0, md1` are both
accepted earlier. -/
theorem mdstat_read_orderly_pairwise_witness :
    orderly_input s4_lines [] = true ∧
      (mdstat_read s4_lines false).Pairwise (fun a b => ¬ a.devnm ∈ b.members) :=
  ⟨by decide, mdstat_read_orderly_pairwise s4_lines (by decide)⟩

end Mdstat
